import Mathlib

/-!
Shallow embedding of the SPSC ring buffer from `src/include/RingBuffer.hpp`.

The C++ class `RingBuffer<T>` holds a heap array `buff_` of `cap_` slots,
two `size_t` counters `readIdx_` / `writeIdx_`, and a precomputed bit
mask `mask_ = cap_ - 1`.  The two operations `pop` and `push` each keep a
function-local `static thread_local size_t` cache (`cachedWriteIdx` in
`pop`, `cachedReadIdx` in `push`); those statics are per-thread and
per-element-type, not per-instance, so they are modelled here as a
separate `ThreadCache` record threaded through the operations rather
than as a field of the buffer.

All `size_t` arithmetic is modelled on `Nat` reduced modulo `2 ^ 64`:
`a - b` on `size_t` becomes `(a + WORD - b) % WORD` (for `a, b < WORD`),
`a + 1` becomes `(a + 1) % WORD`, and `a & mask_` becomes `a &&& mask`.
-/

/-- The number of values of the C++ `size_t` type (64-bit). -/
def WORD : Nat := 2 ^ 64

/-- One `RingBuffer<T>` instance: the storage array (total as a function
on `Nat`; only indices below `cap` are ever used), the realized capacity
`cap_`, the two `size_t` counters and the mask.  Mirrors the data members
of the C++ class; the cache-line padding bytes carry no data. -/
structure RingBuffer (α : Type) where
  buff : Nat → α
  cap : Nat
  readIdx : Nat
  writeIdx : Nat
  mask : Nat

/-- The per-thread, per-element-type pair of `static thread_local`
caches: `cachedWriteIdx` lives inside `pop`, `cachedReadIdx` inside
`push`.  Both are zero-initialized when the thread first exists. -/
structure ThreadCache where
  cachedWriteIdx : Nat
  cachedReadIdx : Nat

/-- The zero-initialized state of the two `static thread_local` caches. -/
def initCache : ThreadCache := ⟨0, 0⟩

/-- The loop of `RingBuffer::getPowerOfTwo`:
`while (capacity != 0) { capacity /= 2; newCapacity *= 2; }`. -/
def powLoop : Nat → Nat → Nat
  | 0, newCapacity => newCapacity
  | c + 1, newCapacity => powLoop ((c + 1) / 2) (2 * newCapacity)
decreasing_by exact Nat.div_lt_self (Nat.succ_pos c) (by omega)

/-- `RingBuffer::getPowerOfTwo`: returns 2 for requests ≤ 2, otherwise
halves the request once and doubles an accumulator once per remaining
halving step. -/
def getPowerOfTwo (capacity : Nat) : Nat :=
  if capacity ≤ 2 then 2 else powLoop (capacity / 2) 1

/-- The constructor `RingBuffer(size_t capacity)`.  `new T[cap_]`
default-initializes the array, so the initial contents are modelled by
an arbitrary function `init`. -/
def mkRingBuffer {α : Type} (init : Nat → α) (capacity : Nat) : RingBuffer α :=
  let cap := getPowerOfTwo capacity
  { buff := init, cap := cap, readIdx := 0, writeIdx := 0, mask := cap - 1 }

/-- `RingBuffer::pop(T&)`, sequential semantics: returns the popped value
(`none` when it returned `false`), the new buffer state, and the new
thread-cache state.  Mirrors the source line by line: load `readIdx_`;
if the cached write index equals it, refresh the cache from `writeIdx_`
and fail when they are still equal; otherwise read slot
`readIdx & mask_` and store `readIdx + 1`. -/
def pop {α : Type} (rb : RingBuffer α) (tc : ThreadCache) :
    Option α × RingBuffer α × ThreadCache :=
  let readIdx := rb.readIdx
  if tc.cachedWriteIdx = readIdx then
    let cachedWriteIdx := rb.writeIdx
    if cachedWriteIdx = readIdx then
      (none, rb, { tc with cachedWriteIdx := cachedWriteIdx })
    else
      (some (rb.buff (readIdx &&& rb.mask)),
        { rb with readIdx := (readIdx + 1) % WORD },
        { tc with cachedWriteIdx := cachedWriteIdx })
  else
    (some (rb.buff (readIdx &&& rb.mask)),
      { rb with readIdx := (readIdx + 1) % WORD },
      tc)

/-- `RingBuffer::push(T)`, sequential semantics: returns the success
flag, the new buffer state and the new thread-cache state.  Mirrors the
source: load `writeIdx_`; if `writeIdx - cachedReadIdx == cap_`, refresh
the cache from `readIdx_` and fail when the difference is still `cap_`;
otherwise write slot `writeIdx & mask_` and store `writeIdx + 1`.
The `size_t` subtraction is `(writeIdx + WORD - cached) % WORD`. -/
def push {α : Type} (rb : RingBuffer α) (tc : ThreadCache) (val : α) :
    Bool × RingBuffer α × ThreadCache :=
  let writeIdx := rb.writeIdx
  if (writeIdx + WORD - tc.cachedReadIdx) % WORD = rb.cap then
    let cachedReadIdx := rb.readIdx
    if (writeIdx + WORD - cachedReadIdx) % WORD = rb.cap then
      (false, rb, { tc with cachedReadIdx := cachedReadIdx })
    else
      (true,
        { rb with
          buff := fun i => if i = writeIdx &&& rb.mask then val else rb.buff i,
          writeIdx := (writeIdx + 1) % WORD },
        { tc with cachedReadIdx := cachedReadIdx })
  else
    (true,
      { rb with
        buff := fun i => if i = writeIdx &&& rb.mask then val else rb.buff i,
        writeIdx := (writeIdx + 1) % WORD },
      tc)

/-- A single operation of the sequential client: a push of a value or a
pop. -/
inductive Op (α : Type) where
  | push (v : α)
  | pop
deriving DecidableEq

/-- The observation one operation produces: the boolean returned by
`push`, or the optional value returned by `pop`. -/
inductive Obs (α : Type) where
  | pushed (ok : Bool)
  | popped (r : Option α)
deriving DecidableEq

/-- Run a sequence of operations on a ring buffer with the calling
thread's cache state; returns the trace of observations, the final
buffer, and the final cache. -/
def runRB {α : Type} (rb : RingBuffer α) (tc : ThreadCache) :
    List (Op α) → List (Obs α) × RingBuffer α × ThreadCache
  | [] => ([], rb, tc)
  | Op.push v :: ops =>
    let r := push rb tc v
    let rest := runRB r.2.1 r.2.2 ops
    (Obs.pushed r.1 :: rest.1, rest.2)
  | Op.pop :: ops =>
    let r := pop rb tc
    let rest := runRB r.2.1 r.2.2 ops
    (Obs.popped r.1 :: rest.1, rest.2)

/-- Modelled from the spec: one step of the reference bounded FIFO queue
of maximum size `cap` — a push succeeds exactly when the queue holds
fewer than `cap` elements and appends at the back. -/
def qPush {α : Type} (cap : Nat) (q : List α) (v : α) : Bool × List α :=
  if q.length < cap then (true, q ++ [v]) else (false, q)

/-- Modelled from the spec: the reference FIFO pop — returns the front
element when the queue is non-empty. -/
def qPop {α : Type} : List α → Option α × List α
  | [] => (none, [])
  | x :: xs => (some x, xs)

/-- Modelled from the spec: run a sequence of operations on the
reference bounded FIFO queue. -/
def runQ {α : Type} (cap : Nat) (q : List α) :
    List (Op α) → List (Obs α) × List α
  | [] => ([], q)
  | Op.push v :: ops =>
    let r := qPush cap q v
    let rest := runQ cap r.2 ops
    (Obs.pushed r.1 :: rest.1, rest.2)
  | Op.pop :: ops =>
    let r := qPop q
    let rest := runQ cap r.2 ops
    (Obs.popped r.1 :: rest.1, rest.2)

/-- The coupling invariant between a ring-buffer state (plus the
operating thread's caches) and the abstract queue `q` it represents.
`R` and `Wn` are the unbounded ghost pop/push counts, `Rc` and `Wc` the
unbounded ghost values behind the two caches. -/
def Coupled {α : Type} (rb : RingBuffer α) (tc : ThreadCache) (q : List α) : Prop :=
  ∃ k R Wn Rc Wc : Nat,
    1 ≤ k ∧ k ≤ 63 ∧ rb.cap = 2 ^ k ∧ rb.mask = rb.cap - 1 ∧
    rb.readIdx = R % WORD ∧ rb.writeIdx = Wn % WORD ∧
    R ≤ Wn ∧ Wn - R = q.length ∧ q.length ≤ rb.cap ∧
    tc.cachedReadIdx = Rc % WORD ∧ Rc ≤ R ∧ Wn - Rc ≤ rb.cap ∧
    tc.cachedWriteIdx = Wc % WORD ∧ R ≤ Wc ∧ Wc ≤ Wn ∧
    (∀ i, i < q.length → q.get? i = some (rb.buff ((R + i) % rb.cap)))

theorem WORD_eq : WORD = 18446744073709551616 := by norm_num [WORD]

/-- The C `size_t` subtraction `a - b` computed on the residues agrees
with the true difference as long as that difference fits in a word. -/
theorem sub_mod_eq {a b : Nat} (hba : b ≤ a) (hlt : a - b < WORD) :
    (a % WORD + WORD - b % WORD) % WORD = a - b := by
  rw [WORD_eq] at *
  omega

/-- Two counters whose true values are within a word of each other have
equal residues exactly when they are equal. -/
theorem mod_eq_mod_iff {a b : Nat} (hab : a ≤ b) (hlt : b - a < WORD) :
    b % WORD = a % WORD ↔ b = a := by
  rw [WORD_eq] at *
  omega

theorem succ_mod (a : Nat) : (a % WORD + 1) % WORD = (a + 1) % WORD := by
  rw [WORD_eq]
  omega

/-- Masking a counter residue with `2^k - 1` (for `k ≤ 64`) yields the
counter's slot index modulo the capacity. -/
theorem mask_slot {x k : Nat} (hk : k ≤ 64) :
    (x % WORD) &&& (2 ^ k - 1) = x % 2 ^ k := by
  rw [Nat.and_pow_two_sub_one_eq_mod, WORD]
  exact Nat.mod_mod_of_dvd x (pow_dvd_pow 2 hk)

/-- A successful `push` writes exactly the slot `writeIdx & mask` and
stores `writeIdx + 1`; nothing else in the buffer changes. -/
theorem push_frame {α : Type} (rb : RingBuffer α) (tc : ThreadCache) (v : α)
    (h : (push rb tc v).1 = true) :
    (push rb tc v).2.1 =
      { rb with
        buff := fun i => if i = rb.writeIdx &&& rb.mask then v else rb.buff i,
        writeIdx := (rb.writeIdx + 1) % WORD } := by
  by_cases h1 : (rb.writeIdx + WORD - tc.cachedReadIdx) % WORD = rb.cap
  · by_cases h2 : (rb.writeIdx + WORD - rb.readIdx) % WORD = rb.cap
    · simp [push, h1, h2] at h
    · simp [push, h1, h2]
  · simp [push, h1]

/-- A failed `push` leaves the buffer (counters and every slot)
untouched. -/
theorem push_fail_frame {α : Type} (rb : RingBuffer α) (tc : ThreadCache) (v : α)
    (h : (push rb tc v).1 = false) :
    (push rb tc v).2.1 = rb := by
  by_cases h1 : (rb.writeIdx + WORD - tc.cachedReadIdx) % WORD = rb.cap
  · by_cases h2 : (rb.writeIdx + WORD - rb.readIdx) % WORD = rb.cap
    · simp [push, h1, h2]
    · simp [push, h1, h2] at h
  · simp [push, h1] at h

/-- A successful `pop` returns the value in slot `readIdx & mask` and
stores `readIdx + 1`; nothing else in the buffer changes. -/
theorem pop_frame {α : Type} (rb : RingBuffer α) (tc : ThreadCache) (x : α)
    (h : (pop rb tc).1 = some x) :
    x = rb.buff (rb.readIdx &&& rb.mask) ∧
    (pop rb tc).2.1 = { rb with readIdx := (rb.readIdx + 1) % WORD } := by
  by_cases h1 : tc.cachedWriteIdx = rb.readIdx
  · by_cases h2 : rb.writeIdx = rb.readIdx
    · simp [pop, h1, h2] at h
    · simp [pop, h1, h2] at h ⊢
      exact h.symm
  · simp [pop, h1] at h ⊢
    exact h.symm

/-- A failed `pop` leaves the buffer untouched. -/
theorem pop_fail_frame {α : Type} (rb : RingBuffer α) (tc : ThreadCache)
    (h : (pop rb tc).1 = none) :
    (pop rb tc).2.1 = rb := by
  by_cases h1 : tc.cachedWriteIdx = rb.readIdx
  · by_cases h2 : rb.writeIdx = rb.readIdx
    · simp [pop, h1, h2]
    · simp [pop, h1, h2] at h
  · simp [pop, h1] at h

/-- Pushing onto a coupled state whose abstract queue is not full
succeeds and couples with the queue extended at the back. -/
theorem push_sim_ok {α : Type} {rb : RingBuffer α} {tc : ThreadCache} {q : List α}
    (h : Coupled rb tc q) (hlt : q.length < rb.cap) (v : α) :
    (push rb tc v).1 = true ∧
    Coupled (push rb tc v).2.1 (push rb tc v).2.2 (q ++ [v]) := by
  obtain ⟨k, R, Wn, Rc, Wc, hk1, hk63, hcap, hmask, hr, hw, hRW, hlen, hqcap,
    hrc, hRcR, hWnRc, hwc, hRWc, hWcWn, hget⟩ := h
  have hcapW : rb.cap < WORD := by
    have h1 : (2:Nat) ^ k ≤ 2 ^ 63 := Nat.pow_le_pow_right (by omega) hk63
    have h2 : (2:Nat) ^ 63 < 2 ^ 64 := by norm_num
    rw [hcap, WORD]
    omega
  have hcappos : 0 < rb.cap := by
    rw [hcap]
    exact Nat.pos_pow_of_pos k (by omega)
  have hsub1 : (rb.writeIdx + WORD - tc.cachedReadIdx) % WORD = Wn - Rc := by
    rw [hw, hrc]
    exact sub_mod_eq (hRcR.trans hRW) (lt_of_le_of_lt hWnRc hcapW)
  have hsub2 : (rb.writeIdx + WORD - rb.readIdx) % WORD = Wn - R := by
    rw [hw, hr]
    exact sub_mod_eq hRW (by omega)
  have hslot : rb.writeIdx &&& rb.mask = Wn % rb.cap := by
    rw [hw, hmask, hcap]
    exact mask_slot (by omega)
  have hwidx : (rb.writeIdx + 1) % WORD = (Wn + 1) % WORD := by
    rw [hw]
    exact succ_mod Wn
  have hmain : ∀ i, i < (q ++ [v]).length →
      (q ++ [v]).get? i =
        some (if ((R + i) % rb.cap) = Wn % rb.cap then v
              else rb.buff ((R + i) % rb.cap)) := by
    intro i hi
    rcases Nat.lt_or_ge i q.length with hi' | hi'
    · rw [List.get?_append hi', hget i hi']
      have hne : (R + i) % rb.cap ≠ Wn % rb.cap := by
        intro heq
        rw [hcap] at heq hqcap
        have hdvd : 2 ^ k ∣ Wn - (R + i) := (Nat.modEq_iff_dvd' (by omega)).mp heq
        have := Nat.le_of_dvd (by omega) hdvd
        omega
      rw [if_neg hne]
    · have hieq : i = q.length := by
        simp only [List.length_append, List.length_singleton] at hi
        omega
      subst hieq
      rw [List.get?_concat_length]
      have heq : (R + q.length) % rb.cap = Wn % rb.cap := by
        have : R + q.length = Wn := by omega
        rw [this]
      rw [if_pos heq]
  by_cases hc1 : Wn - Rc = rb.cap
  · -- cached estimate says full; the refresh reveals free space
    have hc2 : ¬ (Wn - R = rb.cap) := by omega
    have hpush : push rb tc v =
        (true,
          { rb with
            buff := fun i => if i = rb.writeIdx &&& rb.mask then v else rb.buff i,
            writeIdx := (rb.writeIdx + 1) % WORD },
          { tc with cachedReadIdx := rb.readIdx }) := by
      simp [push, hsub1, hsub2, hc1, hc2]
    rw [hpush]
    have hle : R ≤ Wn + 1 := by omega
    have hlen2 : Wn + 1 - R = (q ++ [v]).length := by
      simp only [List.length_append, List.length_singleton]
      omega
    have hqcap2 : (q ++ [v]).length ≤ rb.cap := by
      simp only [List.length_append, List.length_singleton]
      omega
    have hWnRc2 : Wn + 1 - R ≤ rb.cap := by omega
    have hWcWn2 : Wc ≤ Wn + 1 := by omega
    have hget2 : ∀ i, i < (q ++ [v]).length →
        (q ++ [v]).get? i =
          some (if (R + i) % rb.cap = rb.writeIdx &&& rb.mask then v
                else rb.buff ((R + i) % rb.cap)) := by
      intro i hi
      rw [hslot]
      exact hmain i hi
    exact ⟨rfl, k, R, Wn + 1, R, Wc, hk1, hk63, hcap, hmask, hr, hwidx, hle,
      hlen2, hqcap2, hr, le_refl R, hWnRc2, hwc, hRWc, hWcWn2, hget2⟩
  · -- fast path: the cached estimate already shows free space
    have hpush : push rb tc v =
        (true,
          { rb with
            buff := fun i => if i = rb.writeIdx &&& rb.mask then v else rb.buff i,
            writeIdx := (rb.writeIdx + 1) % WORD },
          tc) := by
      simp [push, hsub1, hc1]
    rw [hpush]
    have hle : R ≤ Wn + 1 := by omega
    have hlen2 : Wn + 1 - R = (q ++ [v]).length := by
      simp only [List.length_append, List.length_singleton]
      omega
    have hqcap2 : (q ++ [v]).length ≤ rb.cap := by
      simp only [List.length_append, List.length_singleton]
      omega
    have hWnRc2 : Wn + 1 - Rc ≤ rb.cap := by omega
    have hWcWn2 : Wc ≤ Wn + 1 := by omega
    have hget2 : ∀ i, i < (q ++ [v]).length →
        (q ++ [v]).get? i =
          some (if (R + i) % rb.cap = rb.writeIdx &&& rb.mask then v
                else rb.buff ((R + i) % rb.cap)) := by
      intro i hi
      rw [hslot]
      exact hmain i hi
    exact ⟨rfl, k, R, Wn + 1, Rc, Wc, hk1, hk63, hcap, hmask, hr, hwidx, hle,
      hlen2, hqcap2, hrc, hRcR, hWnRc2, hwc, hRWc, hWcWn2, hget2⟩

/-- Pushing onto a coupled state whose abstract queue is full fails and
leaves the buffer unchanged (only the thread cache is refreshed). -/
theorem push_sim_full {α : Type} {rb : RingBuffer α} {tc : ThreadCache} {q : List α}
    (h : Coupled rb tc q) (hfull : q.length = rb.cap) (v : α) :
    (push rb tc v).1 = false ∧ (push rb tc v).2.1 = rb ∧
    Coupled rb (push rb tc v).2.2 q := by
  obtain ⟨k, R, Wn, Rc, Wc, hk1, hk63, hcap, hmask, hr, hw, hRW, hlen, hqcap,
    hrc, hRcR, hWnRc, hwc, hRWc, hWcWn, hget⟩ := h
  have hcapW : rb.cap < WORD := by
    have h1 : (2:Nat) ^ k ≤ 2 ^ 63 := Nat.pow_le_pow_right (by omega) hk63
    have h2 : (2:Nat) ^ 63 < 2 ^ 64 := by norm_num
    rw [hcap, WORD]
    omega
  have hsub1 : (rb.writeIdx + WORD - tc.cachedReadIdx) % WORD = Wn - Rc := by
    rw [hw, hrc]
    exact sub_mod_eq (hRcR.trans hRW) (lt_of_le_of_lt hWnRc hcapW)
  have hsub2 : (rb.writeIdx + WORD - rb.readIdx) % WORD = Wn - R := by
    rw [hw, hr]
    exact sub_mod_eq hRW (by omega)
  have hc1 : Wn - Rc = rb.cap := by omega
  have hc2 : Wn - R = rb.cap := by omega
  have hpush : push rb tc v =
      (false, rb, { tc with cachedReadIdx := rb.readIdx }) := by
    simp [push, hsub1, hsub2, hc1, hc2]
  rw [hpush]
  dsimp only
  exact ⟨rfl, rfl, k, R, Wn, R, Wc, hk1, hk63, hcap, hmask, hr, hw, hRW, hlen,
    hqcap, hr, le_refl R, by omega, hwc, hRWc, hWcWn, hget⟩

/-- Popping from a coupled state with a non-empty abstract queue returns
the queue's front and couples with its tail. -/
theorem pop_sim_cons {α : Type} {rb : RingBuffer α} {tc : ThreadCache}
    {x : α} {rest : List α} (h : Coupled rb tc (x :: rest)) :
    (pop rb tc).1 = some x ∧
    Coupled (pop rb tc).2.1 (pop rb tc).2.2 rest := by
  obtain ⟨k, R, Wn, Rc, Wc, hk1, hk63, hcap, hmask, hr, hw, hRW, hlen, hqcap,
    hrc, hRcR, hWnRc, hwc, hRWc, hWcWn, hget⟩ := h
  have hcapW : rb.cap < WORD := by
    have h1 : (2:Nat) ^ k ≤ 2 ^ 63 := Nat.pow_le_pow_right (by omega) hk63
    have h2 : (2:Nat) ^ 63 < 2 ^ 64 := by norm_num
    rw [hcap, WORD]
    omega
  have hlen' : Wn - R = rest.length + 1 := by
    simpa using hlen
  have hRltW : R < Wn := by omega
  have hslotR : rb.readIdx &&& rb.mask = R % rb.cap := by
    rw [hr, hmask, hcap]
    exact mask_slot (by omega)
  have hval : rb.buff (R % rb.cap) = x := by
    have h0 := hget 0 (by simp)
    simp at h0
    exact h0.symm
  have hridx : (rb.readIdx + 1) % WORD = (R + 1) % WORD := by
    rw [hr]
    exact succ_mod R
  have hrest : ∀ i, i < rest.length →
      rest.get? i = some (rb.buff (((R + 1) + i) % rb.cap)) := by
    intro i hi
    have h1 := hget (i + 1) (by simp; omega)
    rw [List.get?_cons_succ] at h1
    rw [h1]
    have : R + (i + 1) = (R + 1) + i := by omega
    rw [this]
  by_cases hc : Wc = R
  · -- cache miss: refresh from the write counter, which is ahead
    have htest1 : tc.cachedWriteIdx = rb.readIdx := by
      rw [hwc, hr, hc]
    have htest2 : ¬ (rb.writeIdx = rb.readIdx) := by
      rw [hw, hr]
      intro heq
      have := (mod_eq_mod_iff hRW (by omega)).mp heq
      omega
    have hpop : pop rb tc =
        (some (rb.buff (rb.readIdx &&& rb.mask)),
          { rb with readIdx := (rb.readIdx + 1) % WORD },
          { tc with cachedWriteIdx := rb.writeIdx }) := by
      simp [pop, htest1, htest2]
    rw [hpop]
    have hlen2 : Wn - (R + 1) = rest.length := by omega
    have hqcap2 : rest.length ≤ rb.cap := by
      simp only [List.length_cons] at hqcap
      omega
    exact ⟨by rw [hslotR, hval], k, R + 1, Wn, Rc, Wn, hk1, hk63, hcap, hmask,
      hridx, hw, by omega, hlen2, hqcap2, hrc, by omega, hWnRc, hw,
      by omega, le_refl Wn, hrest⟩
  · -- cache hit: the cached write index already shows data
    have htest1 : ¬ (tc.cachedWriteIdx = rb.readIdx) := by
      rw [hwc, hr]
      intro heq
      have := (mod_eq_mod_iff hRWc (by omega)).mp heq
      omega
    have hpop : pop rb tc =
        (some (rb.buff (rb.readIdx &&& rb.mask)),
          { rb with readIdx := (rb.readIdx + 1) % WORD },
          tc) := by
      simp [pop, htest1]
    rw [hpop]
    have hlen2 : Wn - (R + 1) = rest.length := by omega
    have hqcap2 : rest.length ≤ rb.cap := by
      simp only [List.length_cons] at hqcap
      omega
    have hRWc2 : R + 1 ≤ Wc := by
      rcases Nat.lt_or_ge R Wc with h' | h'
      · omega
      · omega
    exact ⟨by rw [hslotR, hval], k, R + 1, Wn, Rc, Wc, hk1, hk63, hcap, hmask,
      hridx, hw, by omega, hlen2, hqcap2, hrc, by omega, hWnRc, hwc,
      hRWc2, hWcWn, hrest⟩

/-- Popping from a coupled state with an empty abstract queue fails and
leaves the buffer unchanged (only the thread cache is refreshed). -/
theorem pop_sim_empty {α : Type} {rb : RingBuffer α} {tc : ThreadCache}
    (h : Coupled rb tc []) :
    (pop rb tc).1 = none ∧ (pop rb tc).2.1 = rb ∧
    Coupled rb (pop rb tc).2.2 [] := by
  obtain ⟨k, R, Wn, Rc, Wc, hk1, hk63, hcap, hmask, hr, hw, hRW, hlen, hqcap,
    hrc, hRcR, hWnRc, hwc, hRWc, hWcWn, hget⟩ := h
  have hWnR : Wn = R := by
    simp at hlen
    omega
  have hWcR : Wc = R := by omega
  have htest1 : tc.cachedWriteIdx = rb.readIdx := by
    rw [hwc, hr, hWcR]
  have htest2 : rb.writeIdx = rb.readIdx := by
    rw [hw, hr, hWnR]
  have hpop : pop rb tc =
      (none, rb, { tc with cachedWriteIdx := rb.writeIdx }) := by
    simp [pop, htest1, htest2]
  rw [hpop]
  dsimp only
  exact ⟨rfl, rfl, k, R, Wn, Rc, Wn, hk1, hk63, hcap, hmask, hr, hw, hRW, hlen,
    hqcap, hrc, hRcR, hWnRc, hw, by omega, le_refl Wn, hget⟩

theorem log2_step {n : Nat} (h : 2 ≤ n) : Nat.log2 n = Nat.log2 (n / 2) + 1 := by
  conv_lhs => rw [Nat.log2]
  simp [h]

/-- The `getPowerOfTwo` loop computes `acc * 2 ^ (bit length of c)`. -/
theorem powLoop_eq : ∀ c, 1 ≤ c → ∀ acc, powLoop c acc = acc * 2 ^ (Nat.log2 c + 1) := by
  intro c
  induction c using Nat.strong_induction_on with
  | _ c ih =>
    intro hc acc
    rcases Nat.lt_or_ge c 2 with h2 | h2
    · have hc1 : c = 1 := by omega
      subst hc1
      simp [powLoop, Nat.log2]
      ring
    · obtain ⟨c', rfl⟩ : ∃ c', c = c' + 1 := ⟨c - 1, by omega⟩
      simp only [powLoop]
      rw [ih ((c' + 1) / 2) (by omega) (by omega) (2 * acc)]
      rw [log2_step h2]
      ring

/-- Closed form of `RingBuffer::getPowerOfTwo`: it returns
`2 ^ ⌊log₂ (max c 2)⌋`, the largest power of two that is ≤ `max c 2`
(not the smallest one ≥ it). -/
theorem getPowerOfTwo_eq (c : Nat) : getPowerOfTwo c = 2 ^ Nat.log2 (max c 2) := by
  unfold getPowerOfTwo
  by_cases h : c ≤ 2
  · rw [if_pos h]
    have hm : max c 2 = 2 := by omega
    have hl2 : Nat.log2 2 = 1 := by
      have h' := Nat.log2_two_pow (n := 1)
      simpa using h'
    rw [hm, hl2]
    norm_num
  · rw [if_neg h]
    have hmax : max c 2 = c := by omega
    rw [hmax]
    rw [powLoop_eq (c / 2) (by omega) 1]
    rw [← log2_step (by omega)]
    ring

theorem getPowerOfTwo_le (c : Nat) : getPowerOfTwo c ≤ max c 2 := by
  rw [getPowerOfTwo_eq]
  exact (Nat.le_log2 (by omega)).mp (le_refl _)

theorem getPowerOfTwo_greatest {c j : Nat} (h : 2 ^ j ≤ max c 2) :
    2 ^ j ≤ getPowerOfTwo c := by
  rw [getPowerOfTwo_eq]
  exact Nat.pow_le_pow_right (by omega) ((Nat.le_log2 (by omega)).mpr h)

theorem log2_ge_one (c : Nat) : 1 ≤ Nat.log2 (max c 2) := by
  have h21 : (2:Nat) ^ 1 ≤ max c 2 := by
    norm_num
  exact (Nat.le_log2 (by omega)).mpr h21

theorem log2_le_63 {c : Nat} (h : c < WORD) : Nat.log2 (max c 2) ≤ 63 := by
  have hm : max c 2 < 2 ^ 64 := by
    rw [WORD] at h
    have : (2:Nat) < 2 ^ 64 := by norm_num
    omega
  have := (Nat.log2_lt (by omega)).mpr hm
  omega

/-- A freshly constructed buffer, used by a thread whose caches are
still zero-initialized, is coupled with the empty queue. -/
theorem coupled_init {α : Type} (init : Nat → α) (c : Nat) (hc : c < WORD) :
    Coupled (mkRingBuffer init c) initCache [] := by
  refine ⟨Nat.log2 (max c 2), 0, 0, 0, 0, log2_ge_one c, log2_le_63 hc,
    getPowerOfTwo_eq c, rfl, (Nat.zero_mod _).symm, (Nat.zero_mod _).symm,
    le_refl 0, rfl, Nat.zero_le _, (Nat.zero_mod _).symm, le_refl 0, ?_,
    (Nat.zero_mod _).symm, le_refl 0, le_refl 0, ?_⟩
  · simp
  · intro i hi
    simp at hi

theorem coupled_len_le {α : Type} {rb : RingBuffer α} {tc : ThreadCache}
    {q : List α} (h : Coupled rb tc q) : q.length ≤ rb.cap := by
  obtain ⟨k, R, Wn, Rc, Wc, -, -, -, -, -, -, -, -, hqcap, -⟩ := h
  exact hqcap

theorem push_cap_mask {α : Type} (rb : RingBuffer α) (tc : ThreadCache) (v : α) :
    (push rb tc v).2.1.cap = rb.cap ∧ (push rb tc v).2.1.mask = rb.mask := by
  cases hb : (push rb tc v).1 with
  | false =>
    rw [push_fail_frame rb tc v hb]
    exact ⟨rfl, rfl⟩
  | true =>
    rw [push_frame rb tc v hb]
    exact ⟨rfl, rfl⟩

theorem pop_cap_mask {α : Type} (rb : RingBuffer α) (tc : ThreadCache) :
    (pop rb tc).2.1.cap = rb.cap ∧ (pop rb tc).2.1.mask = rb.mask := by
  cases ho : (pop rb tc).1 with
  | none =>
    rw [pop_fail_frame rb tc ho]
    exact ⟨rfl, rfl⟩
  | some x =>
    rw [(pop_frame rb tc x ho).2]
    exact ⟨rfl, rfl⟩

/-- Running any operation sequence from a coupled state produces the
same observation trace as the reference bounded FIFO queue of that
capacity, ends coupled with the reference queue's final contents, and
never changes the capacity. -/
theorem run_sim {α : Type} (ops : List (Op α)) :
    ∀ (rb : RingBuffer α) (tc : ThreadCache) (q : List α), Coupled rb tc q →
      (runRB rb tc ops).1 = (runQ rb.cap q ops).1 ∧
      Coupled (runRB rb tc ops).2.1 (runRB rb tc ops).2.2 (runQ rb.cap q ops).2 ∧
      (runRB rb tc ops).2.1.cap = rb.cap := by
  induction ops with
  | nil =>
    intro rb tc q h
    exact ⟨rfl, h, rfl⟩
  | cons op ops ih =>
    intro rb tc q h
    cases op with
    | push v =>
      simp only [runRB, runQ]
      by_cases hfull : q.length < rb.cap
      · obtain ⟨h1, h2⟩ := push_sim_ok h hfull v
        have hq : qPush rb.cap q v = (true, q ++ [v]) := by
          simp [qPush, hfull]
        obtain ⟨ihtr, ihc, ihcap⟩ :=
          ih (push rb tc v).2.1 (push rb tc v).2.2 (q ++ [v]) h2
        rw [(push_cap_mask rb tc v).1] at ihtr ihc ihcap
        rw [hq, h1]
        exact ⟨by rw [ihtr], ihc, by rw [ihcap]⟩
      · have hlen : q.length = rb.cap :=
          le_antisymm (coupled_len_le h) (Nat.le_of_not_lt hfull)
        obtain ⟨h1, h2, h3⟩ := push_sim_full h hlen v
        have hq : qPush rb.cap q v = (false, q) := by
          simp [qPush, hfull]
        obtain ⟨ihtr, ihc, ihcap⟩ := ih rb (push rb tc v).2.2 q h3
        rw [hq, h1, h2]
        exact ⟨by rw [ihtr], ihc, by rw [ihcap]⟩
    | pop =>
      simp only [runRB, runQ]
      cases q with
      | nil =>
        obtain ⟨h1, h2, h3⟩ := pop_sim_empty h
        have hq : qPop ([] : List α) = (none, []) := rfl
        obtain ⟨ihtr, ihc, ihcap⟩ := ih rb (pop rb tc).2.2 [] h3
        rw [hq, h1, h2]
        exact ⟨by rw [ihtr], ihc, by rw [ihcap]⟩
      | cons x rest =>
        obtain ⟨h1, h2⟩ := pop_sim_cons h
        have hq : qPop (x :: rest) = (some x, rest) := rfl
        obtain ⟨ihtr, ihc, ihcap⟩ :=
          ih (pop rb tc).2.1 (pop rb tc).2.2 rest h2
        rw [(pop_cap_mask rb tc).1] at ihtr ihc ihcap
        rw [hq, h1]
        exact ⟨by rw [ihtr], ihc, by rw [ihcap]⟩

example : getPowerOfTwo 1 = 2 := by decide
example : getPowerOfTwo 2 = 2 := by decide
example : getPowerOfTwo 3 = 2 := by simp [getPowerOfTwo, powLoop]
example : getPowerOfTwo 4 = 4 := by simp [getPowerOfTwo, powLoop]
example : getPowerOfTwo 5 = 4 := by simp [getPowerOfTwo, powLoop]
example : getPowerOfTwo 8 = 8 := by simp [getPowerOfTwo, powLoop]
example : getPowerOfTwo 9 = 8 := by simp [getPowerOfTwo, powLoop]

theorem coupled_cap_pos {α : Type} {rb : RingBuffer α} {tc : ThreadCache}
    {q : List α} (h : Coupled rb tc q) : 0 < rb.cap := by
  obtain ⟨k, R, Wn, Rc, Wc, -, -, hcap, -⟩ := h
  rw [hcap]
  exact Nat.pos_pow_of_pos k (by omega)

theorem coupled_cap_lt_word {α : Type} {rb : RingBuffer α} {tc : ThreadCache}
    {q : List α} (h : Coupled rb tc q) : rb.cap < WORD := by
  obtain ⟨k, R, Wn, Rc, Wc, -, hk63, hcap, -⟩ := h
  have h1 : (2:Nat) ^ k ≤ 2 ^ 63 := Nat.pow_le_pow_right (by omega) hk63
  have h2 : (2:Nat) ^ 63 < 2 ^ 64 := by norm_num
  rw [hcap, WORD]
  omega

/-- A residue added to an offset, reduced modulo a capacity dividing the
word size, equals the true counter plus offset modulo the capacity. -/
theorem res_add_mod {R i k : Nat} (hk : k ≤ 64) :
    (R % WORD + i) % 2 ^ k = (R + i) % 2 ^ k := by
  have h1 : R % WORD % 2 ^ k = R % 2 ^ k := by
    rw [WORD]
    exact Nat.mod_mod_of_dvd R (pow_dvd_pow 2 hk)
  conv_lhs => rw [Nat.add_mod]
  rw [h1, ← Nat.add_mod]

/-- C1 counterexample: the claim (and the spec) say `create(3)` realizes
capacity 4, the smallest power of two ≥ 3; the code's `getPowerOfTwo`
instead realizes 2. -/
theorem c1_cex_requested_three_realizes_two :
    (mkRingBuffer (fun _ => (0:Nat)) 3).cap ≠ 4 := by
  have h : (mkRingBuffer (fun _ => (0:Nat)) 3).cap = 2 := by
    simp [mkRingBuffer, getPowerOfTwo, powLoop]
  rw [h]
  omega

/-- C1 (amended): for every requested capacity c ≥ 1, the realized
capacity is the LARGEST power of two ≤ max(c, 2) (a power of two, at
least 2, ≤ max(c,2), and ≥ every power of two that is ≤ max(c,2)); in
particular create(1) realizes 2, create(3) realizes 2, create(4)
realizes 4, and create(5) realizes 4. -/
theorem c1_capacity_rounds_down (c : Nat) (h : 1 ≤ c) (init : Nat → Nat) :
    ((∃ k, 1 ≤ k ∧ (mkRingBuffer init c).cap = 2 ^ k) ∧
      (mkRingBuffer init c).cap ≤ max c 2 ∧
      (∀ j, 2 ^ j ≤ max c 2 → 2 ^ j ≤ (mkRingBuffer init c).cap)) ∧
    (mkRingBuffer init 1).cap = 2 ∧ (mkRingBuffer init 3).cap = 2 ∧
    (mkRingBuffer init 4).cap = 4 ∧ (mkRingBuffer init 5).cap = 4 := by
  refine ⟨⟨⟨Nat.log2 (max c 2), log2_ge_one c, getPowerOfTwo_eq c⟩,
    getPowerOfTwo_le c, fun j hj => getPowerOfTwo_greatest hj⟩, ?_, ?_, ?_, ?_⟩
  · simp [mkRingBuffer, getPowerOfTwo, powLoop]
  · simp [mkRingBuffer, getPowerOfTwo, powLoop]
  · simp [mkRingBuffer, getPowerOfTwo, powLoop]
  · simp [mkRingBuffer, getPowerOfTwo, powLoop]

theorem c1_capacity_rounds_down_witness :
    1 ≤ 5 ∧ (mkRingBuffer (fun _ => (0:Nat)) 5).cap ≤ max 5 2 :=
  ⟨by decide, (c1_capacity_rounds_down 5 (by decide) (fun _ => 0)).1.2.1⟩

/-- C2: a freshly constructed buffer driven by a single thread (whose
thread-local caches are still zero-initialized) is observationally
equivalent, over any sequence of pushes and pops, to the reference
bounded FIFO queue whose maximum size is the realized capacity: every
push and pop returns exactly what the reference queue returns. -/
theorem c2_fifo_refinement {α : Type} (c : Nat) (h1 : 1 ≤ c) (h2 : c < WORD)
    (init : Nat → α) (ops : List (Op α)) :
    (runRB (mkRingBuffer init c) initCache ops).1 =
      (runQ (mkRingBuffer init c).cap [] ops).1 :=
  (run_sim ops _ _ [] (coupled_init init c h2)).1

theorem c2_fifo_refinement_witness :
    (1 ≤ 2 ∧ 2 < WORD) ∧
    (runRB (mkRingBuffer (fun _ => (0:Nat)) 2) initCache
        [Op.push 7, Op.push 8, Op.push 9, Op.pop, Op.pop, Op.pop]).1 =
      (runQ (mkRingBuffer (fun _ => (0:Nat)) 2).cap []
        [Op.push 7, Op.push 8, Op.push 9, Op.pop, Op.pop, Op.pop]).1 :=
  ⟨⟨by decide, by decide⟩, c2_fifo_refinement 2 (by decide) (by decide) _ _⟩

/-- C6: failure atomicity — a push that returns false and a pop that
returns none leave the buffer (both counters and every storage slot)
completely unchanged. -/
theorem c6_failure_atomicity {α : Type} (rb : RingBuffer α) (tc : ThreadCache)
    (v : α) :
    ((push rb tc v).1 = false → (push rb tc v).2.1 = rb) ∧
    ((pop rb tc).1 = none → (pop rb tc).2.1 = rb) :=
  ⟨push_fail_frame rb tc v, pop_fail_frame rb tc⟩

theorem c6_failure_atomicity_witness :
    ((push (⟨fun _ => (0:Nat), 2, 0, 2, 1⟩ : RingBuffer Nat) initCache 9).1 = false ∧
      (push (⟨fun _ => (0:Nat), 2, 0, 2, 1⟩ : RingBuffer Nat) initCache 9).2.1 =
        (⟨fun _ => (0:Nat), 2, 0, 2, 1⟩ : RingBuffer Nat)) ∧
    ((pop (⟨fun _ => (0:Nat), 2, 0, 0, 1⟩ : RingBuffer Nat) initCache).1 = none ∧
      (pop (⟨fun _ => (0:Nat), 2, 0, 0, 1⟩ : RingBuffer Nat) initCache).2.1 =
        (⟨fun _ => (0:Nat), 2, 0, 0, 1⟩ : RingBuffer Nat)) :=
  ⟨⟨by decide,
      (c6_failure_atomicity (⟨fun _ => (0:Nat), 2, 0, 2, 1⟩ : RingBuffer Nat)
        initCache 9).1 (by decide)⟩,
    ⟨by decide,
      (c6_failure_atomicity (⟨fun _ => (0:Nat), 2, 0, 0, 1⟩ : RingBuffer Nat)
        initCache 9).2 (by decide)⟩⟩

/-- C8: immediately after construction both counters are zero, the
realized capacity is a power of two and at least 2, and the mask equals
capacity minus one. -/
theorem c8_fresh_state {α : Type} (init : Nat → α) (c : Nat) (h : 1 ≤ c) :
    (mkRingBuffer init c).readIdx = 0 ∧ (mkRingBuffer init c).writeIdx = 0 ∧
    (∃ k, (mkRingBuffer init c).cap = 2 ^ k) ∧
    2 ≤ (mkRingBuffer init c).cap ∧
    (mkRingBuffer init c).mask = (mkRingBuffer init c).cap - 1 := by
  refine ⟨rfl, rfl, ⟨Nat.log2 (max c 2), getPowerOfTwo_eq c⟩, ?_, rfl⟩
  have h2k : 2 ≤ 2 ^ Nat.log2 (max c 2) := by
    calc (2:Nat) = 2 ^ 1 := by norm_num
    _ ≤ 2 ^ Nat.log2 (max c 2) := Nat.pow_le_pow_right (by omega) (log2_ge_one c)
  calc (2:Nat) ≤ 2 ^ Nat.log2 (max c 2) := h2k
  _ = (mkRingBuffer init c).cap := (getPowerOfTwo_eq c).symm

theorem c8_fresh_state_witness :
    1 ≤ 5 ∧
    ((mkRingBuffer (fun _ => (0:Nat)) 5).readIdx = 0 ∧
      (mkRingBuffer (fun _ => (0:Nat)) 5).writeIdx = 0 ∧
      (∃ k, (mkRingBuffer (fun _ => (0:Nat)) 5).cap = 2 ^ k) ∧
      2 ≤ (mkRingBuffer (fun _ => (0:Nat)) 5).cap ∧
      (mkRingBuffer (fun _ => (0:Nat)) 5).mask =
        (mkRingBuffer (fun _ => (0:Nat)) 5).cap - 1) :=
  ⟨by decide, c8_fresh_state (fun _ => 0) 5 (by decide)⟩

/-- C9: frame effects — a successful pop only advances `readIdx` by one
(modulo the word) and returns the value of slot `readIdx & mask`,
changing no slot and neither `writeIdx`, capacity nor mask; a successful
push only writes slot `writeIdx & mask` and advances `writeIdx` by one;
capacity and mask are never changed by either operation. -/
theorem c9_frame_effects {α : Type} (rb : RingBuffer α) (tc : ThreadCache)
    (v x : α) :
    ((pop rb tc).1 = some x →
      (pop rb tc).2.1 = { rb with readIdx := (rb.readIdx + 1) % WORD } ∧
      x = rb.buff (rb.readIdx &&& rb.mask)) ∧
    ((push rb tc v).1 = true →
      (push rb tc v).2.1 =
        { rb with
          buff := fun i => if i = rb.writeIdx &&& rb.mask then v else rb.buff i,
          writeIdx := (rb.writeIdx + 1) % WORD }) ∧
    (push rb tc v).2.1.cap = rb.cap ∧ (push rb tc v).2.1.mask = rb.mask ∧
    (pop rb tc).2.1.cap = rb.cap ∧ (pop rb tc).2.1.mask = rb.mask :=
  ⟨fun h => ⟨(pop_frame rb tc x h).2, (pop_frame rb tc x h).1⟩,
    push_frame rb tc v, (push_cap_mask rb tc v).1, (push_cap_mask rb tc v).2,
    (pop_cap_mask rb tc).1, (pop_cap_mask rb tc).2⟩

theorem c9_frame_effects_witness :
    ((pop (⟨fun _ => (7:Nat), 2, 0, 1, 1⟩ : RingBuffer Nat) initCache).1 = some 7 ∧
      (pop (⟨fun _ => (7:Nat), 2, 0, 1, 1⟩ : RingBuffer Nat) initCache).2.1 =
        (⟨fun _ => (7:Nat), 2, (0 + 1) % WORD, 1, 1⟩ : RingBuffer Nat)) ∧
    ((push (⟨fun _ => (7:Nat), 2, 0, 1, 1⟩ : RingBuffer Nat) initCache 9).1 = true ∧
      (push (⟨fun _ => (7:Nat), 2, 0, 1, 1⟩ : RingBuffer Nat) initCache 9).2.1 =
        (⟨fun i => if i = 1 &&& 1 then (9:Nat) else 7, 2, 0, (1 + 1) % WORD, 1⟩ :
          RingBuffer Nat)) :=
  ⟨⟨by decide,
      ((c9_frame_effects (⟨fun _ => (7:Nat), 2, 0, 1, 1⟩ : RingBuffer Nat)
        initCache 9 7).1 (by decide)).1⟩,
    ⟨by decide,
      (c9_frame_effects (⟨fun _ => (7:Nat), 2, 0, 1, 1⟩ : RingBuffer Nat)
        initCache 9 7).2.1 (by decide)⟩⟩

/-- Reference queue: a block of pushes that fits entirely within the
capacity succeeds step by step and appends the values in order. -/
theorem runQ_pushes {α : Type} (cap : Nat) :
    ∀ (vs : List α) (q : List α), q.length + vs.length ≤ cap →
      (runQ cap q (vs.map Op.push)).1 =
        List.replicate vs.length (Obs.pushed true) ∧
      (runQ cap q (vs.map Op.push)).2 = q ++ vs := by
  intro vs
  induction vs with
  | nil =>
    intro q h
    simp [runQ]
  | cons v vs ih =>
    intro q h
    simp only [List.map_cons, runQ]
    have hq : qPush cap q v = (true, q ++ [v]) := by
      simp only [List.length_cons] at h
      simp only [qPush, if_pos (show q.length < cap by omega)]
    rw [hq]
    obtain ⟨ih1, ih2⟩ := ih (q ++ [v]) (by simp at h ⊢; omega)
    refine ⟨?_, ?_⟩
    · simp [ih1, List.replicate_succ]
    · simp [ih2]

theorem runRB_append {α : Type} (l1 l2 : List (Op α)) :
    ∀ rb tc,
      (runRB rb tc (l1 ++ l2)).1 =
        (runRB rb tc l1).1 ++
          (runRB (runRB rb tc l1).2.1 (runRB rb tc l1).2.2 l2).1 ∧
      (runRB rb tc (l1 ++ l2)).2 =
        (runRB (runRB rb tc l1).2.1 (runRB rb tc l1).2.2 l2).2 := by
  induction l1 with
  | nil =>
    intro rb tc
    simp [runRB]
  | cons op l1 ih =>
    intro rb tc
    cases op with
    | push v =>
      simp only [List.cons_append, runRB]
      obtain ⟨ih1, ih2⟩ := ih (push rb tc v).2.1 (push rb tc v).2.2
      simp [ih1, ih2]
    | pop =>
      simp only [List.cons_append, runRB]
      obtain ⟨ih1, ih2⟩ := ih (pop rb tc).2.1 (pop rb tc).2.2
      simp [ih1, ih2]

/-- C3: on a fresh buffer of realized capacity N, with no pops, the
first N pushes all return true, the (N+1)-th returns false, and the
failing push leaves the buffer exactly as it was after the N successful
pushes (the value is not consumed). -/
theorem c3_capacity_pushes {α : Type} (c : Nat) (h1 : 1 ≤ c) (h2 : c < WORD)
    (init : Nat → α) (vs : List α)
    (hlen : vs.length = (mkRingBuffer init c).cap + 1) :
    (runRB (mkRingBuffer init c) initCache (vs.map Op.push)).1 =
      List.replicate (mkRingBuffer init c).cap (Obs.pushed true) ++
        [Obs.pushed false] ∧
    (runRB (mkRingBuffer init c) initCache (vs.map Op.push)).2.1 =
      (runRB (mkRingBuffer init c) initCache
        ((vs.take (mkRingBuffer init c).cap).map Op.push)).2.1 := by
  have htake : (vs.take (mkRingBuffer init c).cap).length =
      (mkRingBuffer init c).cap := by
    rw [List.length_take]
    omega
  have hdrop : (vs.drop (mkRingBuffer init c).cap).length = 1 := by
    rw [List.length_drop]
    omega
  obtain ⟨v, hv⟩ := List.length_eq_one.mp hdrop
  have hsplit : vs = vs.take (mkRingBuffer init c).cap ++ [v] := by
    conv_lhs => rw [← List.take_append_drop (mkRingBuffer init c).cap vs]
    rw [hv]
  obtain ⟨htr, hc, hcap⟩ := run_sim ((vs.take (mkRingBuffer init c).cap).map Op.push)
    (mkRingBuffer init c) initCache [] (coupled_init init c h2)
  obtain ⟨hq1, hq2⟩ := runQ_pushes (mkRingBuffer init c).cap
    (vs.take (mkRingBuffer init c).cap) [] (by simp [htake])
  rw [hq2] at hc
  simp only [List.nil_append] at hc
  have hfullness : (vs.take (mkRingBuffer init c).cap).length =
      (runRB (mkRingBuffer init c) initCache
        ((vs.take (mkRingBuffer init c).cap).map Op.push)).2.1.cap := by
    rw [hcap, htake]
  obtain ⟨hp1, hp2, hp3⟩ := push_sim_full hc hfullness v
  obtain ⟨ha1, ha2⟩ := runRB_append ((vs.take (mkRingBuffer init c).cap).map Op.push)
    [Op.push v] (mkRingBuffer init c) initCache
  constructor
  · conv_lhs => rw [hsplit, List.map_append, List.map_singleton]
    rw [ha1, htr, hq1, htake]
    simp only [runRB, hp1]
  · conv_lhs => rw [hsplit, List.map_append, List.map_singleton]
    have ha2' := congrArg Prod.fst ha2
    rw [ha2']
    simp only [runRB]
    rw [hp2]

theorem c3_capacity_pushes_witness :
    (1 ≤ 2 ∧ 2 < WORD ∧
      ([5, 6, 7] : List Nat).length = (mkRingBuffer (fun _ => (0:Nat)) 2).cap + 1) ∧
    (runRB (mkRingBuffer (fun _ => (0:Nat)) 2) initCache
        (([5, 6, 7] : List Nat).map Op.push)).1 =
      List.replicate (mkRingBuffer (fun _ => (0:Nat)) 2).cap (Obs.pushed true) ++
        [Obs.pushed false] :=
  ⟨⟨by decide, by decide, by decide⟩,
    (c3_capacity_pushes 2 (by decide) (by decide) (fun _ => 0) [5, 6, 7]
      (by decide)).1⟩

theorem coupled_occupancy {α : Type} {rb : RingBuffer α} {tc : ThreadCache}
    {q : List α} (h : Coupled rb tc q) :
    (rb.writeIdx + WORD - rb.readIdx) % WORD = q.length := by
  have hcapW := coupled_cap_lt_word h
  obtain ⟨k, R, Wn, Rc, Wc, hk1, hk63, hcap, hmask, hr, hw, hRW, hlen, hqcap,
    hrc, hRcR, hWnRc, hwc, hRWc, hWcWn, hget⟩ := h
  rw [hw, hr, sub_mod_eq hRW (by omega)]
  omega

theorem coupled_slots {α : Type} {rb : RingBuffer α} {tc : ThreadCache}
    {q : List α} (h : Coupled rb tc q) :
    ∀ i, i < q.length → q.get? i = some (rb.buff ((rb.readIdx + i) % rb.cap)) := by
  obtain ⟨k, R, Wn, Rc, Wc, hk1, hk63, hcap, hmask, hr, hw, hRW, hlen, hqcap,
    hrc, hRcR, hWnRc, hwc, hRWc, hWcWn, hget⟩ := h
  intro i hi
  rw [hget i hi, hr, hcap, res_add_mod (by omega)]

/-- C5: after any single-threaded operation sequence on a fresh buffer,
the unsigned difference `writeIdx - readIdx` is at most the capacity,
and the logically occupied slots are exactly the positions
`readIdx .. writeIdx-1` reduced modulo the capacity: slot
`(readIdx + i) % cap` holds the i-th oldest live value. -/
theorem c5_occupancy_invariant {α : Type} (c : Nat) (h1 : 1 ≤ c) (h2 : c < WORD)
    (init : Nat → α) (ops : List (Op α)) :
    ((runRB (mkRingBuffer init c) initCache ops).2.1.writeIdx + WORD -
        (runRB (mkRingBuffer init c) initCache ops).2.1.readIdx) % WORD ≤
      (runRB (mkRingBuffer init c) initCache ops).2.1.cap ∧
    (runQ (mkRingBuffer init c).cap [] ops).2.length =
      ((runRB (mkRingBuffer init c) initCache ops).2.1.writeIdx + WORD -
        (runRB (mkRingBuffer init c) initCache ops).2.1.readIdx) % WORD ∧
    ∀ i, i < (runQ (mkRingBuffer init c).cap [] ops).2.length →
      (runQ (mkRingBuffer init c).cap [] ops).2.get? i =
        some ((runRB (mkRingBuffer init c) initCache ops).2.1.buff
          (((runRB (mkRingBuffer init c) initCache ops).2.1.readIdx + i) %
            (runRB (mkRingBuffer init c) initCache ops).2.1.cap)) := by
  obtain ⟨-, hc, -⟩ := run_sim ops _ _ [] (coupled_init init c h2)
  refine ⟨?_, (coupled_occupancy hc).symm, coupled_slots hc⟩
  rw [coupled_occupancy hc]
  exact coupled_len_le hc

theorem c5_occupancy_invariant_witness :
    (1 ≤ 2 ∧ 2 < WORD) ∧
    ((runRB (mkRingBuffer (fun _ => (0:Nat)) 2) initCache
        [Op.push 1, Op.pop, Op.push 2, Op.push 3]).2.1.writeIdx + WORD -
      (runRB (mkRingBuffer (fun _ => (0:Nat)) 2) initCache
        [Op.push 1, Op.pop, Op.push 2, Op.push 3]).2.1.readIdx) % WORD ≤
      (runRB (mkRingBuffer (fun _ => (0:Nat)) 2) initCache
        [Op.push 1, Op.pop, Op.push 2, Op.push 3]).2.1.cap :=
  ⟨⟨by decide, by decide⟩,
    (c5_occupancy_invariant 2 (by decide) (by decide) (fun _ => 0)
      [Op.push 1, Op.pop, Op.push 2, Op.push 3]).1⟩

/-- C7: from any coupled empty state — including states whose counters
sit just below the top of the 64-bit range, where the increment wraps —
`pop` reports empty and leaves the buffer untouched, an immediately
following `push` succeeds, and popping again returns the pushed value:
the occupancy test and the masked slot selection stay correct across
counter wraparound because the power-of-two capacity divides 2^64. -/
theorem c7_wraparound_no_exhaustion {α : Type} (rb : RingBuffer α)
    (tc : ThreadCache) (v : α) (h : Coupled rb tc []) :
    (pop rb tc).1 = none ∧ (pop rb tc).2.1 = rb ∧
    (push rb (pop rb tc).2.2 v).1 = true ∧
    (pop (push rb (pop rb tc).2.2 v).2.1 (push rb (pop rb tc).2.2 v).2.2).1 =
      some v := by
  obtain ⟨hp1, hp2, hp3⟩ := pop_sim_empty h
  have hpos : 0 < rb.cap := coupled_cap_pos h
  obtain ⟨hq1, hq2⟩ := push_sim_ok hp3 (by simpa using hpos) v
  have hq2' : Coupled (push rb (pop rb tc).2.2 v).2.1
      (push rb (pop rb tc).2.2 v).2.2 [v] := by
    simpa using hq2
  exact ⟨hp1, hp2, hq1, (pop_sim_cons hq2').1⟩

theorem c7_wraparound_no_exhaustion_witness :
    (pop (⟨fun _ => (0:Nat), 2, WORD - 1, WORD - 1, 1⟩ : RingBuffer Nat)
      (⟨WORD - 1, WORD - 1⟩ : ThreadCache)).1 = none ∧
    (pop (⟨fun _ => (0:Nat), 2, WORD - 1, WORD - 1, 1⟩ : RingBuffer Nat)
      (⟨WORD - 1, WORD - 1⟩ : ThreadCache)).2.1 =
      (⟨fun _ => (0:Nat), 2, WORD - 1, WORD - 1, 1⟩ : RingBuffer Nat) ∧
    (push (⟨fun _ => (0:Nat), 2, WORD - 1, WORD - 1, 1⟩ : RingBuffer Nat)
      (pop (⟨fun _ => (0:Nat), 2, WORD - 1, WORD - 1, 1⟩ : RingBuffer Nat)
        (⟨WORD - 1, WORD - 1⟩ : ThreadCache)).2.2 5).1 = true ∧
    (pop (push (⟨fun _ => (0:Nat), 2, WORD - 1, WORD - 1, 1⟩ : RingBuffer Nat)
        (pop (⟨fun _ => (0:Nat), 2, WORD - 1, WORD - 1, 1⟩ : RingBuffer Nat)
          (⟨WORD - 1, WORD - 1⟩ : ThreadCache)).2.2 5).2.1
      (push (⟨fun _ => (0:Nat), 2, WORD - 1, WORD - 1, 1⟩ : RingBuffer Nat)
        (pop (⟨fun _ => (0:Nat), 2, WORD - 1, WORD - 1, 1⟩ : RingBuffer Nat)
          (⟨WORD - 1, WORD - 1⟩ : ThreadCache)).2.2 5).2.2).1 = some 5 :=
  c7_wraparound_no_exhaustion
    (⟨fun _ => (0:Nat), 2, WORD - 1, WORD - 1, 1⟩ : RingBuffer Nat)
    (⟨WORD - 1, WORD - 1⟩ : ThreadCache) 5
    ⟨1, WORD - 1, WORD - 1, WORD - 1, WORD - 1, by decide, by decide, by decide,
      by decide, by decide, by decide, le_refl _, by decide, by decide,
      by decide, le_refl _, by decide, by decide, le_refl _, le_refl _,
      by intro i hi; simp at hi⟩

/-- C10 counterexample: after one successful push onto a fresh
capacity-2 buffer the state is reachable and non-full (occupancy 1 < 2),
and push(2) returns true; but the immediately following pop returns the
FIFO front `some 1`, not the just-pushed value 2 — refuting the claim
that the pop returns the pushed value at every non-full state. -/
theorem c10_cex_nonfull_pop_returns_front :
    (((push (mkRingBuffer (fun _ => (0:Nat)) 2) initCache 1).2.1.writeIdx + WORD -
        (push (mkRingBuffer (fun _ => (0:Nat)) 2) initCache 1).2.1.readIdx) % WORD <
      (push (mkRingBuffer (fun _ => (0:Nat)) 2) initCache 1).2.1.cap) ∧
    (push (push (mkRingBuffer (fun _ => (0:Nat)) 2) initCache 1).2.1
      (push (mkRingBuffer (fun _ => (0:Nat)) 2) initCache 1).2.2 2).1 = true ∧
    (pop (push (push (mkRingBuffer (fun _ => (0:Nat)) 2) initCache 1).2.1
        (push (mkRingBuffer (fun _ => (0:Nat)) 2) initCache 1).2.2 2).2.1
      (push (push (mkRingBuffer (fun _ => (0:Nat)) 2) initCache 1).2.1
        (push (mkRingBuffer (fun _ => (0:Nat)) 2) initCache 1).2.2 2).2.2).1 =
      some 1 ∧
    (pop (push (push (mkRingBuffer (fun _ => (0:Nat)) 2) initCache 1).2.1
        (push (mkRingBuffer (fun _ => (0:Nat)) 2) initCache 1).2.2 2).2.1
      (push (push (mkRingBuffer (fun _ => (0:Nat)) 2) initCache 1).2.1
        (push (mkRingBuffer (fun _ => (0:Nat)) 2) initCache 1).2.2 2).2.2).1 ≠
      some 2 := by
  refine ⟨by decide, by decide, by decide, by decide⟩

/-- C10 (amended): at every reachable non-full state of a single
fresh buffer operated by one thread, push(v) returns true and an
immediately following pop succeeds; the popped value equals v whenever
the buffer was empty before the push (in general it is the oldest
enqueued value, by FIFO order). -/
theorem c10_roundtrip_amended {α : Type} (c : Nat) (h1 : 1 ≤ c) (h2 : c < WORD)
    (init : Nat → α) (ops : List (Op α)) (v : α)
    (hnf : ((runRB (mkRingBuffer init c) initCache ops).2.1.writeIdx + WORD -
          (runRB (mkRingBuffer init c) initCache ops).2.1.readIdx) % WORD <
        (runRB (mkRingBuffer init c) initCache ops).2.1.cap) :
    (push (runRB (mkRingBuffer init c) initCache ops).2.1
      (runRB (mkRingBuffer init c) initCache ops).2.2 v).1 = true ∧
    (pop (push (runRB (mkRingBuffer init c) initCache ops).2.1
        (runRB (mkRingBuffer init c) initCache ops).2.2 v).2.1
      (push (runRB (mkRingBuffer init c) initCache ops).2.1
        (runRB (mkRingBuffer init c) initCache ops).2.2 v).2.2).1.isSome = true ∧
    (((runRB (mkRingBuffer init c) initCache ops).2.1.writeIdx + WORD -
        (runRB (mkRingBuffer init c) initCache ops).2.1.readIdx) % WORD = 0 →
      (pop (push (runRB (mkRingBuffer init c) initCache ops).2.1
          (runRB (mkRingBuffer init c) initCache ops).2.2 v).2.1
        (push (runRB (mkRingBuffer init c) initCache ops).2.1
          (runRB (mkRingBuffer init c) initCache ops).2.2 v).2.2).1 = some v) := by
  obtain ⟨-, hc, -⟩ := run_sim ops _ _ [] (coupled_init init c h2)
  have hocc := coupled_occupancy hc
  have hlt : (runQ (mkRingBuffer init c).cap [] ops).2.length <
      (runRB (mkRingBuffer init c) initCache ops).2.1.cap := by
    rw [← hocc]
    exact hnf
  obtain ⟨hp1, hp2⟩ := push_sim_ok hc hlt v
  have hpop : ∃ y, (pop (push (runRB (mkRingBuffer init c) initCache ops).2.1
        (runRB (mkRingBuffer init c) initCache ops).2.2 v).2.1
      (push (runRB (mkRingBuffer init c) initCache ops).2.1
        (runRB (mkRingBuffer init c) initCache ops).2.2 v).2.2).1 = some y ∧
      ((runQ (mkRingBuffer init c).cap [] ops).2 = [] → y = v) := by
    rcases hq : (runQ (mkRingBuffer init c).cap [] ops).2 with - | ⟨x, rest⟩
    · rw [hq] at hp2
      simp only [List.nil_append] at hp2
      exact ⟨v, (pop_sim_cons hp2).1, fun _ => rfl⟩
    · rw [hq] at hp2
      simp only [List.cons_append] at hp2
      refine ⟨x, (pop_sim_cons hp2).1, fun hcon => ?_⟩
      simp at hcon
  obtain ⟨y, hy1, hy2⟩ := hpop
  refine ⟨hp1, by rw [hy1]; rfl, fun h0 => ?_⟩
  have hq0 : (runQ (mkRingBuffer init c).cap [] ops).2 = [] := by
    rw [hocc] at h0
    exact List.length_eq_zero.mp h0
  rw [hy1, hy2 hq0]

theorem c10_roundtrip_amended_witness :
    (1 ≤ 2 ∧ 2 < WORD ∧
      ((runRB (mkRingBuffer (fun _ => (0:Nat)) 2) initCache []).2.1.writeIdx + WORD -
          (runRB (mkRingBuffer (fun _ => (0:Nat)) 2) initCache []).2.1.readIdx) %
          WORD <
        (runRB (mkRingBuffer (fun _ => (0:Nat)) 2) initCache []).2.1.cap) ∧
    (push (runRB (mkRingBuffer (fun _ => (0:Nat)) 2) initCache []).2.1
      (runRB (mkRingBuffer (fun _ => (0:Nat)) 2) initCache []).2.2 42).1 = true ∧
    (pop (push (runRB (mkRingBuffer (fun _ => (0:Nat)) 2) initCache []).2.1
        (runRB (mkRingBuffer (fun _ => (0:Nat)) 2) initCache []).2.2 42).2.1
      (push (runRB (mkRingBuffer (fun _ => (0:Nat)) 2) initCache []).2.1
        (runRB (mkRingBuffer (fun _ => (0:Nat)) 2) initCache []).2.2 42).2.2).1 =
      some 42 := by
  have h := c10_roundtrip_amended 2 (by decide) (by decide) (fun _ => (0:Nat))
    [] 42 (by decide)
  exact ⟨⟨by decide, by decide, by decide⟩, h.1, h.2.2 (by decide)⟩

/-- C4 scenario, all executed by ONE thread: the two `static
thread_local` caches are shared by every `RingBuffer<int>` instance the
thread touches, so operations on buffer B below poison the cache that
`push` later consults for buffer A.  `c4A0`/`c4B0` are two distinct
freshly constructed capacity-2 buffers. -/
def c4A0 : RingBuffer Nat := mkRingBuffer (fun _ => 0) 2

def c4B0 : RingBuffer Nat := mkRingBuffer (fun _ => 0) 2

/-- push 10 onto A (succeeds). -/
def c4s1 : Bool × RingBuffer Nat × ThreadCache := push c4A0 initCache 10

/-- push 11 onto A (succeeds; A is now full, holding 10 and 11). -/
def c4s2 : Bool × RingBuffer Nat × ThreadCache := push c4s1.2.1 c4s1.2.2 11

/-- push 20 onto B (succeeds). -/
def c4s3 : Bool × RingBuffer Nat × ThreadCache := push c4B0 c4s2.2.2 20

/-- push 21 onto B (succeeds; B is now full). -/
def c4s4 : Bool × RingBuffer Nat × ThreadCache := push c4s3.2.1 c4s3.2.2 21

/-- pop from B (returns 20, advancing B's read index to 1). -/
def c4s5 : Option Nat × RingBuffer Nat × ThreadCache := pop c4s4.2.1 c4s4.2.2

/-- push 22 onto B: the cached read index misses, is refreshed to B's
read index 1, and the push succeeds. -/
def c4s6 : Bool × RingBuffer Nat × ThreadCache := push c4s5.2.1 c4s5.2.2 22

/-- push 12 onto the still-full buffer A with the thread cache as left
by B's operations: `writeIdx - cachedReadIdx = 2 - 1 ≠ cap`, so the
fast path "succeeds" and overwrites slot 0. -/
def c4s7 : Bool × RingBuffer Nat × ThreadCache := push c4s2.2.1 c4s6.2.2 12

/-- C4: the thread-local caches are shared across instances, and this
single-threaded two-buffer sequence makes `push` return true on buffer
A while A is full (occupancy = capacity) with both its values unpopped
(the only pop so far returned 20, from B): the push overwrites slot 0,
destroying the never-popped value 10. -/
theorem c4_shared_cache_overwrites_unpopped :
    c4s1.1 = true ∧ c4s2.1 = true ∧
    (c4s2.2.1.writeIdx + WORD - c4s2.2.1.readIdx) % WORD = c4s2.2.1.cap ∧
    c4s2.2.1.buff 0 = 10 ∧ c4s2.2.1.buff 1 = 11 ∧
    c4s5.1 = some 20 ∧
    c4s7.1 = true ∧
    c4s7.2.1.readIdx = c4s2.2.1.readIdx ∧
    c4s7.2.1.buff 0 = 12 := by
  refine ⟨by decide, by decide, by decide, by decide, by decide, by decide,
    by decide, by decide, by decide⟩
